import Mathlib

/-!
Verification development for the QuantumAuth signed-request core
(`qa/requests/canonical.go`, `tpmdevice`, and the `cryptoctx` PQ key vault).

Go strings are modeled as lists of characters (`Str`); Go byte slices as
lists of naturals (`ByteStr`).  The models in this file are transcribed
from the Go source; Go standard-library helpers (`strings`, `net/url`,
`net`, `strconv`) are modeled on the ASCII fragment that this development
evaluates them on.
-/

set_option maxRecDepth 4000

abbrev Str := List Char

abbrev ByteStr := List Nat

namespace GoStr

/-- Model of Go `unicode.IsSpace` restricted to the character set this
development evaluates it on (ASCII whitespace plus NEL and NBSP). -/
def isGoSpace (c : Char) : Bool :=
  c = ' ' || c = '\t' || c = '\n' || c = '\r' ||
  c = Char.ofNat 11 || c = Char.ofNat 12 ||
  c = Char.ofNat 0x85 || c = Char.ofNat 0xA0

/-- Model of Go `strings.TrimSpace`: drop leading and trailing whitespace. -/
def goTrimSpace (s : Str) : Str :=
  (((s.dropWhile isGoSpace).reverse.dropWhile isGoSpace)).reverse

/-- Model of Go `strings.Split(s, sep)` for a one-character separator.
Like Go's, it never returns an empty list: the empty string yields one
empty field. -/
def splitOnChar (sep : Char) : Str → List Str
  | [] => [[]]
  | c :: cs =>
    let r := splitOnChar sep cs
    if c = sep then [] :: r
    else
      match r with
      | [] => [[c]]
      | h :: t => (c :: h) :: t

/-- Model of Go `strings.HasPrefix s pre`. -/
def startsWith : Str → Str → Bool
  | _, [] => true
  | [], _ :: _ => false
  | c :: cs, p :: ps => c = p && startsWith cs ps

/-- Model of Go `strings.HasSuffix s suf`. -/
def endsWith (s suf : Str) : Bool :=
  startsWith s.reverse suf.reverse

/-- Model of Go `strings.TrimPrefix`. -/
def dropPre (s pre : Str) : Str :=
  if startsWith s pre then s.drop pre.length else s

/-- Model of Go `strings.TrimSuffix s "."`. -/
def trimSuffixDot (s : Str) : Str :=
  if endsWith s ['.'] then s.take (s.length - 1) else s

def upperAZ (c : Char) : Bool := 'A' ≤ c && c ≤ 'Z'

def lowerAZ (c : Char) : Bool := 'a' ≤ c && c ≤ 'z'

def digit09 (c : Char) : Bool := '0' ≤ c && c ≤ '9'

/-- Model of Go `strings.ToLower` on ASCII (the only alphabet this
development evaluates it on). -/
def lowerChar (c : Char) : Char :=
  if upperAZ c then Char.ofNat (c.toNat + 32) else c

def goToLower (s : Str) : Str := s.map lowerChar

/-- Model of Go `strings.ToUpper` on ASCII. -/
def upperChar (c : Char) : Char :=
  if lowerAZ c then Char.ofNat (c.toNat - 32) else c

def goToUpper (s : Str) : Str := s.map upperChar

/-- First index of character `c` in `s` (Go `strings.IndexByte`). -/
def indexOfChar : Str → Char → Option Nat
  | [], _ => none
  | x :: xs, c =>
    if x = c then some 0
    else (indexOfChar xs c).map (· + 1)

/-- Last index of character `c` in `s` (Go `strings.LastIndexByte`). -/
def lastIndexOfChar (s : Str) (c : Char) : Option Nat :=
  (indexOfChar s.reverse c).map (fun i => s.length - 1 - i)

/-- Split at the first occurrence of `c`: Go `strings.Cut` for a
one-character separator: returns (before, after-without-separator);
when `c` is absent the whole string is "before". -/
def cutAtChar : Str → Char → Str × Str
  | [], _ => ([], [])
  | x :: xs, c =>
    if x = c then ([], xs)
    else
      let r := cutAtChar xs c
      (x :: r.1, r.2)

/-- Go slice-to-first-`'/'` (`strings.SplitN(s, "/", 2)[0]` together with
the remainder starting at the separator, as `parse` keeps it). -/
def cutBeforeChar (s : Str) (c : Char) : Str × Str :=
  match indexOfChar s c with
  | none => (s, [])
  | some i => (s.take i, s.drop i)

/-- Whether `sub` occurs in `s`, with its first index
(Go `strings.Index`). -/
def substrIndex : Str → Str → Option Nat
  | [], sub => if sub = [] then some 0 else none
  | x :: xs, sub =>
    if startsWith (x :: xs) sub then some 0
    else (substrIndex xs sub).map (· + 1)

/-- Model of Go `strings.Contains`. -/
def containsSubstr (s sub : Str) : Bool :=
  (substrIndex s sub).isSome

def isHexDigit (c : Char) : Bool :=
  digit09 c || ('a' ≤ c && c ≤ 'f') || ('A' ≤ c && c ≤ 'F')

def hexVal (c : Char) : Nat :=
  if digit09 c then c.toNat - '0'.toNat
  else if 'a' ≤ c && c ≤ 'f' then c.toNat - 'a'.toNat + 10
  else if 'A' ≤ c && c ≤ 'F' then c.toNat - 'A'.toNat + 10
  else 0

/-- Whether Go `hex.DecodeString` succeeds: even length, all hex digits. -/
def hexDecodable (s : Str) : Bool :=
  s.length % 2 = 0 && s.all isHexDigit

def digitsToNatAux : Str → Nat → Option Nat
  | [], acc => some acc
  | c :: cs, acc =>
    if digit09 c then digitsToNatAux cs (acc * 10 + (c.toNat - '0'.toNat))
    else none

/-- Decimal digits of a string, or `none` on any non-digit or on the
empty string. -/
def digitsToNat : Str → Option Nat
  | [] => none
  | s => digitsToNatAux s 0

/-- Model of Go `strconv.ParseInt(s, 10, 64)`: optional sign, decimal
digits, 64-bit signed range check. -/
def goParseInt64 (s : Str) : Option Int :=
  match s with
  | '+' :: rest =>
    match digitsToNat rest with
    | some n => if n ≤ 9223372036854775807 then some (Int.ofNat n) else none
    | none => none
  | '-' :: rest =>
    match digitsToNat rest with
    | some n => if n ≤ 9223372036854775808 then some (-(Int.ofNat n)) else none
    | none => none
  | _ =>
    match digitsToNat s with
    | some n => if n ≤ 9223372036854775807 then some (Int.ofNat n) else none
    | none => none

def natToDecAux : Nat → Nat → Str
  | 0, _ => []
  | fuel + 1, n =>
    if n = 0 then []
    else natToDecAux fuel (n / 10) ++ [Char.ofNat ('0'.toNat + n % 10)]

/-- Decimal rendering of a natural number. -/
def natToDec (n : Nat) : Str :=
  if n = 0 then ['0'] else natToDecAux n n

/-- Model of Go `fmt.Sprintf("%d", n)` for an `int64`. -/
def intToDec (n : Int) : Str :=
  if n < 0 then '-' :: natToDec n.natAbs else natToDec n.natAbs

/-- Join a list of lines with `'\n'` (Go `strings.Join(lines, "\n")`). -/
def joinNL : List Str → Str
  | [] => []
  | [l] => l
  | l :: ls => l ++ '\n' :: joinNL ls

end GoStr

namespace Requests

open GoStr

/-- Inputs to canonicalization (`CanonicalInput` in
`qa/requests/canonical.go`). -/
structure CanonicalInput where
  Method : Str
  Path : Str
  AppID : Str
  BackendHost : Str
  TS : Int
  ChallengeID : Str
  UserID : Str
  DeviceID : Str
  BodySHA256Hex : Str
  deriving DecidableEq, Repr

/-- Fields recovered by `ParseCanonicalString` (`ParsedCanonical`). -/
structure ParsedCanonical where
  Method : Str
  Path : Str
  AppID : Str
  BackendHost : Str
  TS : Int
  ChallengeID : Str
  UserID : Str
  DeviceID : Str
  BodySHA256 : Str
  deriving DecidableEq, Repr

inductive CanonErr where
  | missingBodySha256
  | invalidBodySha256Length
  | invalidBodySha256Hex
  | invalidAud
  deriving DecidableEq, Repr

/-- Error cases of `ParseCanonicalString`, one constructor per distinct
`fmt.Errorf` site. -/
inductive ParseErr where
  | lineCount (got : Nat)
  | invalidAppLine
  | invalidAudLine
  | invalidTSLine
  | parseTS
  | invalidChallengeLine
  | invalidUserLine
  | invalidDeviceLine
  | invalidBodyLine
  deriving DecidableEq, Repr

/-- Outcome of the parser.  Go's `lines[i]` on an out-of-range index does
not return an error: it panics; `panic` records that, so that crashes are
distinguishable from error returns. -/
inductive ParseOut where
  | ok (p : ParsedCanonical)
  | err (e : ParseErr)
  | panic
  deriving DecidableEq, Repr

/-- Go slice indexing: in range gives the element, out of range panics. -/
def lineAt (lines : List Str) (i : Nat) (k : Str → ParseOut) : ParseOut :=
  match lines[i]? with
  | none => .panic
  | some l => k l

end Requests

namespace GoURL

open GoStr

/-- Go `net/url.stringContainsCTLByte`: any byte below 0x20 or equal
to 0x7F. -/
def isCTL (c : Char) : Bool := c.toNat < 0x20 || c.toNat = 0x7F

def containsCTL (s : Str) : Bool := s.any isCTL

/-- Characters Go's `shouldEscape` leaves unescaped in the host component
(mode `encodeHost`): alphanumerics, the RFC 3986 sub-delims plus
`: [ ] < > "`, and the unreserved marks. -/
def allowedHostChar (c : Char) : Bool :=
  lowerAZ c || upperAZ c || digit09 c ||
  c = '!' || c = '$' || c = '&' || c = '\'' || c = '(' || c = ')' ||
  c = '*' || c = '+' || c = ',' || c = ';' || c = '=' || c = ':' ||
  c = '[' || c = ']' || c = '<' || c = '>' || c = '"' ||
  c = '-' || c = '_' || c = '.' || c = '~'

/-- Go `net/url.unescape` in host or zone mode.  A percent escape must be
two hex digits; in host mode (`zone = false`) a decoded byte below 0x80
is rejected unless the escape is literally `%25`; an unescaped ASCII byte
the host alphabet forbids is rejected.  Bytes at or above 0x80 are kept
(modeled per decoded byte as a character). -/
def unescapeHostMode (zone : Bool) : Str → Option Str
  | [] => some []
  | c :: rest =>
    if c = '%' then
      match rest with
      | a :: b :: rest2 =>
        if isHexDigit a && isHexDigit b then
          let v := hexVal a * 16 + hexVal b
          if !zone && v < 0x80 && !(a = '2' && b = '5') then none
          else (unescapeHostMode zone rest2).map (fun r => Char.ofNat v :: r)
        else none
      | _ => none
    else if c.toNat < 0x80 && !allowedHostChar c then none
    else (unescapeHostMode zone rest).map (fun r => c :: r)

def unescapeHost (s : Str) : Option Str := unescapeHostMode false s

def unescapeZone (s : Str) : Option Str := unescapeHostMode true s

/-- Go `net/url.validOptionalPort`: empty, or a colon followed by
decimal digits (possibly none). -/
def validOptionalPort : Str → Bool
  | [] => true
  | ':' :: ds => ds.all digit09
  | _ => false

/-- Whether every percent sign in `s` begins a well-formed two-hex-digit
escape; this is all `unescape` checks in path and fragment modes. -/
def percentEscapesOk : Str → Bool
  | [] => true
  | c :: rest =>
    if c = '%' then
      match rest with
      | a :: b :: rest2 => isHexDigit a && isHexDigit b && percentEscapesOk rest2
      | _ => false
    else percentEscapesOk rest

/-- Go `net/url.validUserinfo`. -/
def validUserinfo (s : Str) : Bool :=
  s.all fun c =>
    lowerAZ c || upperAZ c || digit09 c ||
    c = '-' || c = '.' || c = '_' || c = ':' || c = '~' || c = '!' ||
    c = '$' || c = '&' || c = '\'' || c = '(' || c = ')' || c = '*' ||
    c = '+' || c = ',' || c = ';' || c = '=' || c = '%' || c = '@'

/-- Go `net/url.parseHost`: bracketed IP literals (with optional RFC 6874
zone) and plain hosts, each with an optional `:port`, then host
unescaping. -/
def parseHost (host : Str) : Option Str :=
  if startsWith host ['['] then
    match lastIndexOfChar host ']' with
    | none => none
    | some i =>
      let colonPort := host.drop (i + 1)
      if !validOptionalPort colonPort then none
      else
        match substrIndex (host.take i) ('%' :: '2' :: '5' :: []) with
        | some z =>
          match unescapeHost (host.take z),
                unescapeZone ((host.take i).drop z),
                unescapeHost (host.drop i) with
          | some h1, some h2, some h3 => some (h1 ++ h2 ++ h3)
          | _, _, _ => none
        | none => unescapeHost host
  else
    match lastIndexOfChar host ':' with
    | none => unescapeHost host
    | some i =>
      if validOptionalPort (host.drop i) then unescapeHost host else none

/-- Go `net/url.parseAuthority`, host part: strip userinfo at the last
`'@'`, parse the host, validate the userinfo. -/
def parseAuthorityHost (authority : Str) : Option Str :=
  match lastIndexOfChar authority '@' with
  | none => parseHost authority
  | some i =>
    match parseHost (authority.drop (i + 1)) with
    | none => none
    | some h => if validUserinfo (authority.take i) then some h else none

def isSchemeHeadChar (c : Char) : Bool := lowerAZ c || upperAZ c

def isSchemeTailChar (c : Char) : Bool :=
  digit09 c || c = '+' || c = '-' || c = '.'

/-- Go `net/url.getScheme`: returns (scheme, rest); an invalid character
before the first colon means no scheme (the whole input is the rest); a
leading colon is an error. -/
def getSchemeAux (orig : Str) (acc : Str) : Str → Option (Str × Str)
  | [] => some ([], orig)
  | c :: cs =>
    if isSchemeHeadChar c then getSchemeAux orig (acc ++ [c]) cs
    else if isSchemeTailChar c then
      if acc = [] then some ([], orig) else getSchemeAux orig (acc ++ [c]) cs
    else if c = ':' then
      if acc = [] then none else some (acc, cs)
    else some ([], orig)

def getScheme (s : Str) : Option (Str × Str) := getSchemeAux s [] s

/-- Model of `url.Parse(rawURL)` restricted to what `NormalizeBackendHost`
reads: `some u.Host` when parsing succeeds (the host may be empty), `none`
when `url.Parse` returns an error.  Follows `net/url.Parse` and
`net/url.parse` with `viaRequest = false`: control-byte check, fragment
cut, scheme split, query cut, authority between `"//"` and the first
`'/'`, userinfo/host parsing, and percent-escape validation of path and
fragment; a rootless path after a scheme is opaque (empty host); with no
scheme, a colon in the first path segment is an error. -/
def urlParseHost (rawURL : Str) : Option Str :=
  if containsCTL rawURL then none
  else
    let frag := (cutAtChar rawURL '#').2
    let noFrag := (cutAtChar rawURL '#').1
    if !percentEscapesOk frag then none
    else
      match getScheme noFrag with
      | none => none
      | some (scheme, rest0) =>
        let rest := (cutAtChar rest0 '?').1
        if startsWith rest ['/', '/'] &&
            (scheme ≠ [] || !startsWith rest ['/', '/', '/']) then
          let after2 := rest.drop 2
          let authority := (cutBeforeChar after2 '/').1
          let path := (cutBeforeChar after2 '/').2
          match parseAuthorityHost authority with
          | none => none
          | some host => if percentEscapesOk path then some host else none
        else if !startsWith rest ['/'] then
          if scheme ≠ [] then some []
          else if ((cutBeforeChar rest '/').1).contains ':' then none
          else if percentEscapesOk rest then some [] else none
        else if percentEscapesOk rest then some [] else none

/-- Go `net/url.splitHostPort` (used by `URL.Hostname` and `URL.Port`):
strip a valid optional port after the last colon, then strip one pair of
surrounding brackets. -/
def urlSplitHostPort (hostPort : Str) : Str × Str :=
  let hp :=
    match lastIndexOfChar hostPort ':' with
    | some colon =>
      if validOptionalPort (hostPort.drop colon) then
        (hostPort.take colon, hostPort.drop (colon + 1))
      else (hostPort, [])
    | none => (hostPort, [])
  if startsWith hp.1 ['['] && endsWith hp.1 [']'] then
    ((hp.1.drop 1).take (hp.1.length - 2), hp.2)
  else hp

/-- Go `net.JoinHostPort`: brackets the host when it contains a colon. -/
def netJoinHostPort (host port : Str) : Str :=
  if host.contains ':' then '[' :: host ++ ']' :: ':' :: port
  else host ++ ':' :: port

/-- Go `net.SplitHostPort`: the port starts after the last colon; a
bracketed host must have its first `']'` directly before that colon; a
bare host must contain no further colon and no brackets. -/
def netSplitHostPort (hostport : Str) : Option (Str × Str) :=
  match lastIndexOfChar hostport ':' with
  | none => none
  | some i =>
    match hostport with
    | [] => none
    | c0 :: _ =>
      if c0 = '[' then
        match indexOfChar hostport ']' with
        | none => none
        | some e =>
          if e + 1 = hostport.length then none
          else if e + 1 = i then
            if (hostport.drop 1).contains '[' then none
            else if (hostport.drop (e + 1)).contains ']' then none
            else some ((hostport.take e).drop 1, hostport.drop (i + 1))
          else none
      else
        if (hostport.take i).contains ':' then none
        else if hostport.contains '[' then none
        else if hostport.contains ']' then none
        else some (hostport.take i, hostport.drop (i + 1))

end GoURL

namespace Requests

open GoStr GoURL

/-- Model of `NormalizeBackendHost` (`qa/requests/canonical.go`): trim;
prepend `"http://"` when the input has no `"://"`; on a successful URL
parse with a non-empty host, lowercase the hostname, strip ports 80/443,
rejoin; otherwise fall back to stripping a scheme-like part and the
path, splitting host:port with `net.SplitHostPort`, or lowercasing and
dropping a trailing dot. -/
def NormalizeBackendHost (input : Str) : Str :=
  let s := goTrimSpace input
  if s = [] then []
  else
    let toParse := if containsSubstr s ("://").data then s
                   else "http://".data ++ s
    let mainResult : Option Str :=
      match urlParseHost toParse with
      | some uHost =>
        if uHost ≠ [] then
          let hp := urlSplitHostPort uHost
          let host := goToLower (goTrimSpace hp.1)
          let port0 := goTrimSpace hp.2
          let port := if port0 = ['8', '0'] || port0 = ['4', '4', '3'] then [] else port0
          if host = [] then some []
          else if port ≠ [] then some (netJoinHostPort host port)
          else some host
        else none
      | none => none
    match mainResult with
    | some r => r
    | none =>
      let raw0 := s
      let raw1 :=
        match substrIndex raw0 ("://").data with
        | some i => raw0.drop (i + 3)
        | none => raw0
      let raw2 := (cutBeforeChar raw1 '/').1
      let raw := goTrimSpace raw2
      match netSplitHostPort raw with
      | some hp =>
        let host := goToLower (goTrimSpace hp.1)
        let port0 := goTrimSpace hp.2
        let port := if port0 = ['8', '0'] || port0 = ['4', '4', '3'] then [] else port0
        if host = [] then []
        else if port ≠ [] then netJoinHostPort host port
        else host
      | none => trimSuffixDot (goToLower raw)

/-- Model of `CanonicalString` (`qa/requests/canonical.go`): validate the
body hash, normalize the audience, join the nine lines with `'\n'`. -/
def canonicalString (ci : CanonicalInput) : Except CanonErr Str :=
  let bodyHex := goToLower (goTrimSpace ci.BodySHA256Hex)
  if bodyHex = [] then .error .missingBodySha256
  else if bodyHex.length ≠ 64 then .error .invalidBodySha256Length
  else if !hexDecodable bodyHex then .error .invalidBodySha256Hex
  else
    let aud := NormalizeBackendHost ci.BackendHost
    if aud = [] then .error .invalidAud
    else
      .ok (joinNL
        [goToUpper ci.Method,
         ci.Path,
         "APP: ".data ++ ci.AppID,
         "AUD: ".data ++ aud,
         "TS: ".data ++ intToDec ci.TS,
         "CHALLENGE: ".data ++ ci.ChallengeID,
         "USER: ".data ++ ci.UserID,
         "DEVICE: ".data ++ ci.DeviceID,
         "BODY-SHA256: ".data ++ bodyHex])

/-- Model of `ParseCanonicalString` (`qa/requests/canonical.go`): split
on `'\n'` after trimming, require exactly 8 lines, check each labeled
line.  Note the final field is read from `lines[8]`, the ninth line,
which is out of range whenever the length check `len(lines) == 8`
passed; Go panics there, modeled by `ParseOut.panic`. -/
def parseCanonicalString (s : Str) : ParseOut :=
  let lines := splitOnChar '\n' (goTrimSpace s)
  if lines.length ≠ 8 then .err (.lineCount lines.length)
  else
    lineAt lines 0 fun l0 =>
    lineAt lines 1 fun l1 =>
    lineAt lines 2 fun l2 =>
    if !startsWith l2 "APP: ".data then .err .invalidAppLine else
    lineAt lines 3 fun l3 =>
    if !startsWith l3 "AUD: ".data then .err .invalidAudLine else
    lineAt lines 4 fun l4 =>
    if !startsWith l4 "TS: ".data then .err .invalidTSLine else
    match goParseInt64 (goTrimSpace (dropPre l4 "TS: ".data)) with
    | none => .err .parseTS
    | some ts =>
    lineAt lines 5 fun l5 =>
    if !startsWith l5 "CHALLENGE: ".data then .err .invalidChallengeLine else
    lineAt lines 6 fun l6 =>
    if !startsWith l6 "USER: ".data then .err .invalidUserLine else
    lineAt lines 7 fun l7 =>
    if !startsWith l7 "DEVICE: ".data then .err .invalidDeviceLine else
    lineAt lines 8 fun l8 =>
    if !startsWith l8 "BODY-SHA256: ".data then .err .invalidBodyLine else
    .ok
      { Method := goTrimSpace l0
        Path := goTrimSpace l1
        AppID := goTrimSpace (dropPre l2 "APP: ".data)
        BackendHost := goTrimSpace (dropPre l3 "AUD: ".data)
        TS := ts
        ChallengeID := goTrimSpace (dropPre l5 "CHALLENGE: ".data)
        UserID := goTrimSpace (dropPre l6 "USER: ".data)
        DeviceID := goTrimSpace (dropPre l7 "DEVICE: ".data)
        BodySHA256 := goTrimSpace (dropPre l8 "BODY-SHA256: ".data) }

/-- Composition of the signer-side serializer with the parser, recording
whether serialization itself succeeded. -/
def canonThenParse (ci : CanonicalInput) : Option ParseOut :=
  match canonicalString ci with
  | .ok s => some (parseCanonicalString s)
  | .error _ => none

end Requests

namespace TPMDevice

open GoStr

def natBytesBEAux : Nat → Nat → ByteStr
  | 0, _ => []
  | fuel + 1, n =>
    if n = 0 then [] else natBytesBEAux fuel (n / 256) ++ [n % 256]

/-- Minimal big-endian bytes of a natural number (Go `big.Int.Bytes` on a
non-negative value; zero gives the empty slice). -/
def natBytesBE (n : Nat) : ByteStr := natBytesBEAux n n

/-- Model of `pad32` (`tpmdevice`): pad a big integer to 32 bytes
big-endian; a nil pointer gives 32 zero bytes; longer values keep the
last 32 bytes.  ECDSA `R`/`S` are non-negative, so the integer is a
`Nat`; `none` models a nil `*big.Int`. -/
def pad32 (n : Option Nat) : ByteStr :=
  match n with
  | none => List.replicate 32 0
  | some v =>
    let nb := natBytesBE v
    let nb2 := if nb.length > 32 then nb.drop (nb.length - 32) else nb
    List.replicate (32 - nb2.length) 0 ++ nb2

/-- Outcome of the `tpm2.Sign` device command: an ECC signature carrying
`R` and `S` (each possibly a nil big integer), a signature of another
algorithm (`sig.ECC == nil` in Go), or a device error. -/
inductive TPMSignResp where
  | eccSig (r s : Option Nat)
  | nonECC
  | failed
  deriving DecidableEq, Repr

inductive SignErr where
  | notInitialized
  | tpmSignErr
  | nonECCSig
  deriving DecidableEq, Repr

/-- Model of `client.Sign` (`tpmdevice/tpmdevice.go`): reject an
uninitialized client, hash the message with SHA-256 and submit it to the
device (the device's response is the model parameter `resp`), reject a
device error or a non-ECC signature, and return `pad32(R) || pad32(S)`. -/
def clientSign (initialized : Bool) (resp : TPMSignResp) (msg : ByteStr) :
    Except SignErr ByteStr :=
  let _ := msg
  if !initialized then .error .notInitialized
  else
    match resp with
    | .failed => .error .tpmSignErr
    | .nonECC => .error .nonECCSig
    | .eccSig r s => .ok (pad32 r ++ pad32 s)

end TPMDevice

namespace CryptoCtx

open GoStr

/-- Byte strings handled by the PQ key vault, with symbolic constructors
for the outputs of the cryptographic and serialization primitives that
live outside this repository (`encoding/json`, `encoding/base64`,
`chacha20poly1305`, and the TPM itself):

* `raw` — plain bytes;
* `badB64` — a base64 field that fails to decode (`tag` distinguishes
  instances);
* `payloadJson` — `json.Marshal(pqPayloadV1)` of a pub/priv pair;
* `sealedJson` — `json.Marshal(sealedBlobV1)` (version, label, TPM
  private and public blobs);
* `tpmPriv`/`tpmPub` — the blobs `tpm2.CreateKeyWithSensitive` returns
  for a sealed secret (only the same TPM can unseal `tpmPriv`);
* `aeadCT` — an XChaCha20-Poly1305 ciphertext, which `Open` authenticates
  against its key, nonce, and associated data;
* `envJson` — `json.MarshalIndent(pqEnvelopeV1)`; its three base64
  fields are stored as the byte strings they encode (base64 encoding is
  injective and `DecodeString ∘ EncodeToString = id`). -/
inductive Blob where
  | raw (bs : ByteStr)
  | badB64 (tag : Nat)
  | payloadJson (pub priv : ByteStr)
  | sealedJson (v : Int) (label : Str) (priv pub : Blob)
  | tpmPriv (secret : ByteStr)
  | tpmPub (secret : ByteStr)
  | aeadCT (key : ByteStr) (nonce : Blob) (aad : Str) (pt : Blob)
  | envJson (v : Int) (sealedDekB64 nonceB64 ctB64 : Blob) (label : Str)
  deriving DecidableEq, Repr

/-- Length of a byte string; the symbolic constructors stand for byte
strings whose length the model does not track. -/
def blobLen : Blob → Nat
  | .raw bs => bs.length
  | _ => 0

/-- Model of `base64.StdEncoding.DecodeString` on an envelope field: a
field written by `EncodeToString` decodes to the encoded bytes; a
tampered field may fail to decode (`badB64`). -/
def b64decode : Blob → Option Blob
  | .badB64 _ => none
  | b => some b

/-- The fields of `pqEnvelopeV1` after `json.Unmarshal`. -/
structure PQEnvelopeV1 where
  v : Int
  sealedDekB64 : Blob
  nonceB64 : Blob
  ctB64 : Blob
  label : Str
  deriving DecidableEq, Repr

/-- Model of `json.Unmarshal` into `pqEnvelopeV1`: succeeds exactly on
bytes produced by marshaling an envelope. -/
def jsonUnmarshalEnvelope : Blob → Option PQEnvelopeV1
  | .envJson v s n c l => some ⟨v, s, n, c, l⟩
  | _ => none

/-- Model of `json.Unmarshal` into `pqPayloadV1`. -/
def jsonUnmarshalPayload : Blob → Option (ByteStr × ByteStr)
  | .payloadJson pub priv => some (pub, priv)
  | _ => none

/-- Model of `chacha20poly1305.NewX`: requires a 32-byte key. -/
def aeadNewX (key : ByteStr) : Option Unit :=
  if key.length = 32 then some () else none

/-- Outcome of `aead.Open`: the authenticated plaintext, an
authentication failure (`ErrOpen`), or a panic — the Go library panics
when the nonce is not 24 bytes long. -/
inductive AEADOut where
  | opened (pt : Blob)
  | authFail
  | panicked
  deriving DecidableEq, Repr

/-- Model of XChaCha20-Poly1305 `Open` as an ideal AEAD: a ciphertext
authenticates exactly under the key, nonce, and associated data it was
sealed with. -/
def aeadOpen (key : ByteStr) (nonce : Blob) (ct : Blob) (aad : Str) : AEADOut :=
  if blobLen nonce ≠ 24 then .panicked
  else
    match ct with
    | .aeadCT k n a pt =>
      if k = key ∧ n = nonce ∧ a = aad then .opened pt else .authFail
    | _ => .authFail

/-- Device commands issued by the sealer, for stating that a path issues
none of them. -/
inductive DevOp where
  | openDev
  | createPrimary
  | createSealed
  deriving DecidableEq, Repr

inductive SealerErr where
  | emptySecret
  | deviceUnavailable
  | unmarshalBlob
  | badBlobVersion (v : Int)
  | labelMismatch
  | loadFailed
  | unsealFailed
  deriving DecidableEq, Repr

/-- Model of `tpm2Sealer.Seal` (`tpmdevice`, non-darwin): reject an empty
secret before touching the device; open the TPM (`tpmOk` says whether
the device is reachable); create the primary storage key and the sealed
child object; package the blobs as `sealedBlobV1` JSON.  The second
component lists the device commands issued. -/
def tpm2Seal (tpmOk : Bool) (ownerAuth label : Str) (secret : ByteStr) :
    Except SealerErr Blob × List DevOp :=
  let _ := ownerAuth
  if secret.length = 0 then (.error .emptySecret, [])
  else if !tpmOk then (.error .deviceUnavailable, [.openDev])
  else
    (.ok (.sealedJson 1 label (.tpmPriv secret) (.tpmPub secret)),
     [.openDev, .createPrimary, .createSealed])

/-- Model of `tpm2Sealer.Unseal`: open the TPM, unmarshal the
`sealedBlobV1`, check version and label, load the blobs, unseal the
secret.  Only a `tpmPriv` blob from the same TPM loads and unseals. -/
def tpm2Unseal (tpmOk : Bool) (ownerAuth label : Str) (blob : Blob) :
    Except SealerErr ByteStr :=
  let _ := ownerAuth
  if !tpmOk then .error .deviceUnavailable
  else
    match blob with
    | .sealedJson v blobLabel priv _pub =>
      if v ≠ 1 then .error (.badBlobVersion v)
      else if blobLabel ≠ [] ∧ blobLabel ≠ label then .error .labelMismatch
      else
        match priv with
        | .tpmPriv secret => .ok secret
        | _ => .error .loadFailed
    | _ => .error .unmarshalBlob

/-- The filesystem visible to the vault: absolute path to contents. -/
abbrev FS := Str → Option Blob

def updateFS (fs : FS) (p : Str) (b : Blob) : FS :=
  fun q => if q = p then some b else fs q

/-- Model of `runtimeImpl.aad`: `"quantumauth:cryptoctx:pq:v1|" + label +
"|" + abs`.  Paths in the model are absolute, so `filepath.Abs` is the
identity. -/
def aadOf (pqLabel pqPath : Str) : Str :=
  "quantumauth:cryptoctx:pq:v1|".data ++ (pqLabel ++ '|' :: pqPath)

/-- Errors `loadPQKeypair` can return, one constructor per distinct
error value; `corruptOrTampered` is `ErrCorruptOrTampered`. -/
inductive LoadErr where
  | missingPQKeyFile
  | unmarshalEnvelope
  | unsupportedVersion (v : Int)
  | corruptOrTampered
  | aeadInit
  deriving DecidableEq, Repr

/-- Outcome of `loadPQKeypair`: the recovered `(pub, priv)`, an error
return, or a panic inside `aead.Open` (wrong-size nonce). -/
inductive LoadOut where
  | ok (pub priv : ByteStr)
  | err (e : LoadErr)
  | panic
  deriving DecidableEq, Repr

/-- Model of `loadPQKeypair` (`cryptoctx`): read the file, unmarshal the
envelope, require version 1, require a matching (or empty) label,
base64-decode the three fields, unseal the DEK with the runtime's label,
require a 32-byte DEK, construct the AEAD, open the ciphertext under the
path-and-label-bound associated data, unmarshal the payload, require
non-empty `pub` and `priv`. -/
def loadPQKeypair (tpmOk : Bool) (ownerAuth : Str) (fs : FS)
    (pqPath pqLabel : Str) : LoadOut :=
  match fs pqPath with
  | none => .err .missingPQKeyFile
  | some b =>
    match jsonUnmarshalEnvelope b with
    | none => .err .unmarshalEnvelope
    | some env =>
      if env.v ≠ 1 then .err (.unsupportedVersion env.v)
      else if env.label ≠ [] ∧ env.label ≠ pqLabel then .err .corruptOrTampered
      else
        match b64decode env.sealedDekB64 with
        | none => .err .corruptOrTampered
        | some sealed =>
          match b64decode env.nonceB64 with
          | none => .err .corruptOrTampered
          | some nonce =>
            match b64decode env.ctB64 with
            | none => .err .corruptOrTampered
            | some ct =>
              match tpm2Unseal tpmOk ownerAuth pqLabel sealed with
              | .error _ => .err .corruptOrTampered
              | .ok dek =>
                if dek.length ≠ 32 then .err .corruptOrTampered
                else
                  match aeadNewX dek with
                  | none => .err .aeadInit
                  | some _ =>
                    match aeadOpen dek nonce ct (aadOf pqLabel pqPath) with
                    | .panicked => .panic
                    | .authFail => .err .corruptOrTampered
                    | .opened plain =>
                      match jsonUnmarshalPayload plain with
                      | none => .err .corruptOrTampered
                      | some (pub, priv) =>
                        if pub.length = 0 ∨ priv.length = 0 then
                          .err .corruptOrTampered
                        else .ok pub priv

inductive EnsureErr where
  | sealDek (e : SealerErr)
  | aeadInit
  deriving DecidableEq, Repr

/-- Outcome of `EnsurePQKeypair`: success with the resulting filesystem,
an error return (filesystem unchanged in the modeled branches), or a
panic inside `aead.Seal` (wrong-size nonce). -/
inductive EnsureOut where
  | ok (fs : FS)
  | err (fs : FS) (e : EnsureErr)
  | panic

/-- The envelope bytes `writeEncryptedPQKeypair` produces for a keypair,
DEK, and nonce: the sealed DEK, the nonce, and the AEAD ciphertext of the
payload under `aadOf`, all base64, with version 1 and the label. -/
def writtenEnvelope (pqLabel pqPath : Str) (pub priv dek nonce : ByteStr) :
    Blob :=
  .envJson 1
    (.sealedJson 1 pqLabel (.tpmPriv dek) (.tpmPub dek))
    (.raw nonce)
    (.aeadCT dek (.raw nonce) (aadOf pqLabel pqPath)
      (.payloadJson pub priv))
    pqLabel

/-- Model of `EnsurePQKeypair` together with `writeEncryptedPQKeypair`
(`cryptoctx`): if the file exists, return at once with nothing written;
otherwise generate an ML-DSA keypair (its marshaled bytes are the
parameters `pub`, `priv`), draw the DEK and nonce (parameters `dek`,
`nonce`), seal the DEK, AEAD-encrypt the payload bound to the label and
path, and atomically write the version-1 envelope. -/
def ensurePQKeypair (tpmOk : Bool) (ownerAuth : Str) (fs : FS)
    (pqPath pqLabel : Str) (pub priv dek nonce : ByteStr) : EnsureOut :=
  match fs pqPath with
  | some _ => .ok fs
  | none =>
    match (tpm2Seal tpmOk ownerAuth pqLabel dek).1 with
    | .error e => .err fs (.sealDek e)
    | .ok sealed =>
      match aeadNewX dek with
      | none => .err fs .aeadInit
      | some _ =>
        if nonce.length ≠ 24 then .panic
        else
          .ok (updateFS fs pqPath
            (.envJson 1 sealed (.raw nonce)
              (.aeadCT dek (.raw nonce) (aadOf pqLabel pqPath)
                (.payloadJson pub priv))
              pqLabel))

end CryptoCtx

section ConcreteInputs

open GoStr Requests CryptoCtx

/-- A request whose fields all pass the signer-side validation rules of
§4.1: allowed method, origin-form path, normalizable audience, v4 UUIDs,
valid 64-hex body digest. -/
def validCanonicalInput : CanonicalInput :=
  { Method := "post".data
    Path := "/api/v1/login?x=1".data
    AppID := "app-1".data
    BackendHost := "EXAMPLE.com:443".data
    TS := 1700000000
    ChallengeID := "6f9619ff-8b86-4011-b42d-00c04fc964ff".data
    UserID := "11111111-2222-4333-8444-555555555555".data
    DeviceID := "99999999-8888-4777-a666-555555555555".data
    BodySHA256Hex :=
      "e3b0c44298fc1c149afbf4c8996fb92427ae41e4649b934ca495991b7852b855".data }

/-- An eight-line input on which every labeled-line check of
`ParseCanonicalString` passes. -/
def eightLineInput : Str :=
  ("GET\n/a\nAPP: a1\nAUD: h1\nTS: 5\nCHALLENGE: c1\nUSER: u1\nDEVICE: d1").data

/-- Another eight-line input passing every labeled-line check. -/
def eightLineInput2 : Str :=
  ("POST\n/b/c\nAPP: x\nAUD: y\nTS: -3\nCHALLENGE: q\nUSER: w\nDEVICE: e").data

/-- A filesystem holding one PQ envelope whose version field is 2. -/
def versionTwoFS : FS :=
  updateFS (fun _ => none) ("/keys/pq.enc").data
    (.envJson 2 (.raw []) (.raw []) (.raw []) ("lbl").data)

/-- Characters of a plain DNS-style host name: ASCII letters, digits,
dots and hyphens. -/
def nameChar (c : Char) : Bool :=
  lowerAZ c || upperAZ c || digit09 c || c = '.' || c = '-'

/-- Hosts of the canonical `hostname[:port]` shape: a non-empty DNS-style
name, optionally followed by a colon and a non-empty decimal port. -/
def hostShaped (h : Str) : Prop :=
  (h ≠ [] ∧ h.all nameChar = true) ∨
  (∃ name port, h = name ++ ':' :: port ∧ name ≠ [] ∧
    name.all nameChar = true ∧ port ≠ [] ∧ port.all digit09 = true)

end ConcreteInputs

section CanonicalizerTheorems

open GoStr Requests

/-- C1.  The claimed round trip fails on the code: `CanonicalString`
succeeds on a fully valid input and emits nine lines, but
`ParseCanonicalString` rejects every nine-line string because its length
check demands eight lines (`canonical.go` line 193), so
`parse(canonicalize(x))` is an error, not a `ParsedCanonical` byte-equal
to the input. -/
theorem c1_parse_of_canonicalize_is_rejected :
    canonThenParse validCanonicalInput = some (.err (.lineCount 9)) := by
  rfl

/-- C2.  The parser's line-count check requires 8 lines, not the 9 the
spec states; and an 8-line input that passes every prefix check is not
rejected with an error at all: the read of `lines[8]` is out of range
and panics. -/
theorem c2_eight_lines_accepted_then_panics :
    (splitOnChar '\n' (goTrimSpace eightLineInput)).length = 8 ∧
    parseCanonicalString eightLineInput = .panic := by
  exact ⟨by rfl, by rfl⟩

/-- C4.  `ParseCanonicalString` is not total on its contract: on this
input (line count 8, which passes the count check, every labeled prefix
present) the code indexes `lines[8]`, which is out of range, and panics
instead of returning a value or an error. -/
theorem c4_parser_panics_in_range_of_count_check :
    parseCanonicalString eightLineInput2 = .panic := by
  rfl

/-- C7 (counterexample).  Backend-host normalization is not idempotent:
the bracketed IPv6 literal `[::1]` normalizes to `::1`, and a second
application parses `::1` as host `:` with port `1`, yielding `[:]:1`. -/
theorem c7_not_idempotent_on_bracketed_ipv6 :
    NormalizeBackendHost ("[::1]").data = (":" ++ ":1").data ∧
    NormalizeBackendHost (NormalizeBackendHost ("[::1]").data) = ("[:]:1").data ∧
    NormalizeBackendHost (NormalizeBackendHost ("[::1]").data) ≠
      NormalizeBackendHost ("[::1]").data := by
  refine ⟨by rfl, by rfl, by decide⟩

end CanonicalizerTheorems

section SignTheorems

open TPMDevice

theorem pad32_length (n : Option Nat) : (pad32 n).length = 32 := by
  match n with
  | none => simp [pad32]
  | some v =>
    simp only [pad32, List.length_append, List.length_replicate]
    split
    · rename_i hgt
      have hd : (natBytesBE v).length - ((natBytesBE v).length - 32) = 32 := by
        omega
      simp [List.length_drop]
      omega
    · omega

/-- C8.  Whenever `client.Sign` returns without error its output is the
64-byte concatenation of `R` and `S`, each zero-left-padded to 32 bytes
by `pad32` (raw concatenation, never DER), for every message. -/
theorem c8_sign_ok_is_64_byte_r_s (initialized : Bool) (resp : TPMSignResp)
    (msg raw : ByteStr) (h : clientSign initialized resp msg = .ok raw) :
    raw.length = 64 ∧ ∃ r s, resp = .eccSig r s ∧ raw = pad32 r ++ pad32 s := by
  unfold clientSign at h
  cases initialized with
  | false => simp at h
  | true =>
    simp only [Bool.not_true, Bool.false_eq_true, if_false] at h
    cases resp with
    | failed => simp at h
    | nonECC => simp at h
    | eccSig r s =>
      simp only [Except.ok.injEq] at h
      subst h
      refine ⟨by simp [pad32_length], r, s, rfl, rfl⟩

/-- Witness for C8 at a concrete device response. -/
theorem c8_sign_ok_is_64_byte_r_s_witness :
    (pad32 (some 5) ++ pad32 (some 7)).length = 64 ∧
    ∃ r s, TPMSignResp.eccSig (some 5) (some 7) = .eccSig r s ∧
      pad32 (some 5) ++ pad32 (some 7) = pad32 r ++ pad32 s :=
  c8_sign_ok_is_64_byte_r_s true (.eccSig (some 5) (some 7)) []
    (pad32 (some 5) ++ pad32 (some 7)) rfl

end SignTheorems

section SealerTheorems

open GoStr CryptoCtx

/-- C10.  On non-darwin platforms `tpm2Sealer.Seal` rejects an empty
secret for every label (and every owner auth, whether or not the device
is even reachable), returning the "secret empty" error before issuing
any device command. -/
theorem c10_seal_empty_secret_errors_without_device (tpmOk : Bool)
    (ownerAuth label : Str) :
    tpm2Seal tpmOk ownerAuth label [] = (.error .emptySecret, []) := by
  rfl

end SealerTheorems

section VaultTheorems

open GoStr CryptoCtx

/-- C3 (counterexample).  A failure of the version check does not return
the opaque `ErrCorruptOrTampered`: `loadPQKeypair` returns the distinct
"unsupported pq envelope version" error, which identifies the failing
step. -/
theorem c3_version_check_error_is_not_opaque :
    loadPQKeypair true [] versionTwoFS ("/keys/pq.enc").data ("lbl").data =
      .err (.unsupportedVersion 2) ∧
    LoadErr.unsupportedVersion 2 ≠ LoadErr.corruptOrTampered := by
  exact ⟨by rfl, by decide⟩

/-- C3 (amended).  Once the envelope has parsed and passed the version
check (a version-1 envelope, whatever its other fields), every error
return of `loadPQKeypair` — label check, base64 decodes, DEK unseal,
32-byte DEK check, AEAD open, payload parse, non-empty check — is the
single opaque `ErrCorruptOrTampered`. -/
theorem c3_failures_after_version_check_are_opaque (tpmOk : Bool)
    (ownerAuth : Str) (fs : FS) (pqPath pqLabel : Str)
    (sdek nb cb : Blob) (lbl : Str)
    (henv : fs pqPath = some (.envJson 1 sdek nb cb lbl))
    (e : LoadErr)
    (he : loadPQKeypair tpmOk ownerAuth fs pqPath pqLabel = .err e) :
    e = .corruptOrTampered := by
  unfold loadPQKeypair at he
  rw [henv] at he
  simp only [jsonUnmarshalEnvelope, aeadNewX] at he
  repeat' split at he
  all_goals simp_all

/-- Witness for C3 (amended): a version-1 envelope whose sealed-DEK
field is not valid base64 is reported as corrupt-or-tampered. -/
theorem c3_failures_after_version_check_are_opaque_witness :
    LoadErr.corruptOrTampered = LoadErr.corruptOrTampered :=
  c3_failures_after_version_check_are_opaque true [] 
    (updateFS (fun _ => none) ("/p").data
      (.envJson 1 (.badB64 0) (.raw []) (.raw []) []))
    ("/p").data ("lbl").data (.badB64 0) (.raw []) (.raw []) []
    (by rfl) .corruptOrTampered (by rfl)

/-- C9.  When the envelope file already exists, `EnsurePQKeypair`
returns nil at the stat check, before any generation or writing: the
resulting filesystem is the very same function, so the file's contents
are untouched. -/
theorem c9_ensure_existing_file_is_noop (tpmOk : Bool) (ownerAuth : Str)
    (fs : FS) (pqPath pqLabel : Str) (pub priv dek nonce : ByteStr)
    (b : Blob) (h : fs pqPath = some b) :
    ensurePQKeypair tpmOk ownerAuth fs pqPath pqLabel pub priv dek nonce =
      .ok fs := by
  unfold ensurePQKeypair
  rw [h]

/-- Witness for C9 at a concrete filesystem. -/
theorem c9_ensure_existing_file_is_noop_witness :
    ensurePQKeypair true [] (updateFS (fun _ => none) ("/p").data (.raw [7]))
      ("/p").data ("lbl").data [1] [2] [3] [4] =
      .ok (updateFS (fun _ => none) ("/p").data (.raw [7])) :=
  c9_ensure_existing_file_is_noop true [] _ ("/p").data ("lbl").data
    [1] [2] [3] [4] (.raw [7]) (by rfl)

/-- C5.  Writing a fresh envelope for a generated keypair (the missing-
file path of `EnsurePQKeypair`) and loading it back with the same label
and path recovers `pub` and `priv` byte-for-byte; and since
`loadPQKeypair` only reads the filesystem, every subsequent load returns
this same value. -/
theorem c5_write_then_load_roundtrip (ownerAuth : Str) (fs : FS)
    (pqPath pqLabel : Str) (pub priv dek nonce : ByteStr)
    (hmiss : fs pqPath = none) (hdek : dek.length = 32)
    (hnonce : nonce.length = 24) (hpub : pub ≠ []) (hpriv : priv ≠ []) :
    ensurePQKeypair true ownerAuth fs pqPath pqLabel pub priv dek nonce =
      .ok (updateFS fs pqPath
        (writtenEnvelope pqLabel pqPath pub priv dek nonce)) ∧
    loadPQKeypair true ownerAuth
      (updateFS fs pqPath (writtenEnvelope pqLabel pqPath pub priv dek nonce))
      pqPath pqLabel = .ok pub priv := by
  constructor
  · unfold ensurePQKeypair
    rw [hmiss]
    simp [tpm2Seal, aeadNewX, hdek, hnonce, writtenEnvelope]
  · unfold loadPQKeypair
    simp only [updateFS, if_pos rfl, writtenEnvelope]
    simp [jsonUnmarshalEnvelope, b64decode, tpm2Unseal, aeadNewX, aeadOpen,
      blobLen, jsonUnmarshalPayload, hdek, hnonce, hpub, hpriv]

/-- Witness for C5 at concrete material. -/
theorem c5_write_then_load_roundtrip_witness :
    ensurePQKeypair true [] (fun _ => none) ("/p").data ("lbl").data
      [1] [2] (List.replicate 32 0) (List.replicate 24 1) =
      .ok (updateFS (fun _ => none) ("/p").data
        (writtenEnvelope ("lbl").data ("/p").data [1] [2]
          (List.replicate 32 0) (List.replicate 24 1))) ∧
    loadPQKeypair true []
      (updateFS (fun _ => none) ("/p").data
        (writtenEnvelope ("lbl").data ("/p").data [1] [2]
          (List.replicate 32 0) (List.replicate 24 1)))
      ("/p").data ("lbl").data = .ok [1] [2] :=
  c5_write_then_load_roundtrip [] (fun _ => none) ("/p").data ("lbl").data
    [1] [2] (List.replicate 32 0) (List.replicate 24 1)
    rfl (by decide) (by decide) (by decide) (by decide)

theorem aadOf_inj_path (label p q : Str) (h : aadOf label p = aadOf label q) :
    p = q := by
  unfold aadOf at h
  have h2 := List.append_cancel_left h
  have h3 := List.append_cancel_left h2
  exact List.cons.inj h3 |>.2

/-- C6.  An envelope written for one absolute path and loaded, intact and
under the same label, from a different absolute path fails AEAD
authentication (the associated data binds the path) and returns the
opaque `ErrCorruptOrTampered`. -/
theorem c6_load_from_moved_path_is_tampered (ownerAuth pqLabel p1 p2 : Str)
    (pub priv dek nonce : ByteStr) (fs : FS)
    (hne : p1 ≠ p2) (hdek : dek.length = 32) (hnonce : nonce.length = 24)
    (hmoved : fs p2 = some (writtenEnvelope pqLabel p1 pub priv dek nonce)) :
    loadPQKeypair true ownerAuth fs p2 pqLabel = .err .corruptOrTampered := by
  unfold loadPQKeypair
  rw [hmoved]
  unfold writtenEnvelope
  have haad : aadOf pqLabel p1 ≠ aadOf pqLabel p2 :=
    fun hcontra => hne (aadOf_inj_path pqLabel p1 p2 hcontra)
  simp [jsonUnmarshalEnvelope, b64decode, tpm2Unseal, aeadNewX, aeadOpen,
    blobLen, hdek, hnonce, haad]

/-- Witness for C6 at concrete paths. -/
theorem c6_load_from_moved_path_is_tampered_witness :
    loadPQKeypair true []
      (updateFS (fun _ => none) ("/b").data
        (writtenEnvelope ("lbl").data ("/a").data [1] [2]
          (List.replicate 32 0) (List.replicate 24 1)))
      ("/b").data ("lbl").data = .err .corruptOrTampered :=
  c6_load_from_moved_path_is_tampered [] ("lbl").data ("/a").data ("/b").data
    [1] [2] (List.replicate 32 0) (List.replicate 24 1) _
    (by decide) (by decide) (by decide) (by rfl)

end VaultTheorems

section HostNormTheorems

namespace HostNorm

open GoStr GoURL Requests

theorem charLeToNat (a b : Char) : (a ≤ b) ↔ a.toNat ≤ b.toNat := by
  rw [Char.le_def]
  exact ⟨fun h => h, fun h => h⟩

theorem charEqToNat (a b : Char) : (a = b) ↔ a.toNat = b.toNat := by
  constructor
  · intro h
    rw [h]
  · intro h
    apply Char.ext
    apply UInt32.toNat.inj
    exact h

theorem charToNatOfNat (n : Nat) (h : n < 55296) : (Char.ofNat n).toNat = n := by
  have hv : n.isValidChar := Or.inl h
  unfold Char.ofNat
  rw [dif_pos hv]
  rfl

theorem nameChar_toNat (c : Char) (h : nameChar c = true) :
    (97 ≤ c.toNat ∧ c.toNat ≤ 122) ∨ (65 ≤ c.toNat ∧ c.toNat ≤ 90) ∨
    (48 ≤ c.toNat ∧ c.toNat ≤ 57) ∨ c.toNat = 46 ∨ c.toNat = 45 := by
  simp only [nameChar, GoStr.lowerAZ, GoStr.upperAZ, GoStr.digit09,
    Bool.or_eq_true, Bool.and_eq_true, decide_eq_true_eq, charLeToNat,
    charEqToNat, Char.reduceToNat] at h
  omega

theorem digit09_toNat (c : Char) (h : digit09 c = true) :
    48 ≤ c.toNat ∧ c.toNat ≤ 57 := by
  simp only [GoStr.digit09, Bool.and_eq_true, decide_eq_true_eq, charLeToNat,
    Char.reduceToNat] at h
  omega

theorem digit09_nameChar (c : Char) (h : digit09 c = true) : nameChar c = true := by
  simp only [nameChar, Bool.or_eq_true]
  exact Or.inl (Or.inl (Or.inr h))

theorem nameChar_ne_of_toNat (c : Char) (d : Char) (_h : nameChar c = true)
    (hd : c.toNat ≠ d.toNat) : c ≠ d := by
  intro heq
  exact hd (charEqToNat c d |>.mp heq)

/-- The character facts every later step needs about a name character. -/
theorem nameChar_facts (c : Char) (h : nameChar c = true) :
    c ≠ '/' ∧ c ≠ ':' ∧ c ≠ '#' ∧ c ≠ '?' ∧ c ≠ '@' ∧ c ≠ '[' ∧ c ≠ ']' ∧
    c ≠ '%' ∧ isCTL c = false ∧ isGoSpace c = false ∧
    allowedHostChar c = true ∧ c.toNat < 128 := by
  have hn := nameChar_toNat c h
  refine ⟨?_, ?_, ?_, ?_, ?_, ?_, ?_, ?_, ?_, ?_, ?_, ?_⟩
  · exact nameChar_ne_of_toNat c '/' h (by simp only [Char.reduceToNat]; omega)
  · exact nameChar_ne_of_toNat c ':' h (by simp only [Char.reduceToNat]; omega)
  · exact nameChar_ne_of_toNat c '#' h (by simp only [Char.reduceToNat]; omega)
  · exact nameChar_ne_of_toNat c '?' h (by simp only [Char.reduceToNat]; omega)
  · exact nameChar_ne_of_toNat c '@' h (by simp only [Char.reduceToNat]; omega)
  · exact nameChar_ne_of_toNat c '[' h (by simp only [Char.reduceToNat]; omega)
  · exact nameChar_ne_of_toNat c ']' h (by simp only [Char.reduceToNat]; omega)
  · exact nameChar_ne_of_toNat c '%' h (by simp only [Char.reduceToNat]; omega)
  · simp only [GoURL.isCTL, Bool.or_eq_false_iff, decide_eq_false_iff_not]
    omega
  · simp only [GoStr.isGoSpace, Bool.or_eq_false_iff, decide_eq_false_iff_not,
      charEqToNat, Char.reduceToNat, charToNatOfNat 11 (by omega),
      charToNatOfNat 12 (by omega), charToNatOfNat 0x85 (by omega),
      charToNatOfNat 0xA0 (by omega)]
    omega
  · simp only [GoURL.allowedHostChar, GoStr.lowerAZ, GoStr.upperAZ,
      GoStr.digit09, Bool.or_eq_true, Bool.and_eq_true, decide_eq_true_eq,
      charLeToNat, charEqToNat, Char.reduceToNat]
    omega
  · omega

theorem dropWhile_all_false (p : Char → Bool) (s : Str)
    (h : ∀ c ∈ s, p c = false) : s.dropWhile p = s := by
  cases s with
  | nil => rfl
  | cons c cs =>
    rw [List.dropWhile_cons_of_neg]
    simp [h c (List.mem_cons_self c cs)]

theorem goTrimSpace_all (s : Str) (h : ∀ c ∈ s, isGoSpace c = false) :
    goTrimSpace s = s := by
  unfold goTrimSpace
  rw [dropWhile_all_false _ _ h]
  rw [dropWhile_all_false _ _ (fun c hc => h c (List.mem_reverse.mp hc))]
  exact List.reverse_reverse s

theorem indexOfChar_not_mem (s : Str) (c : Char) (h : c ∉ s) :
    indexOfChar s c = none := by
  induction s with
  | nil => rfl
  | cons x xs ih =>
    unfold indexOfChar
    rw [if_neg, ih (fun hm => h (List.mem_cons_of_mem x hm))]
    · rfl
    · intro heq
      exact h (heq ▸ List.mem_cons_self x xs)

theorem indexOfChar_append_not_mem (x : Str) (y : Str) (c : Char) (h : c ∉ x) :
    indexOfChar (x ++ c :: y) c = some x.length := by
  induction x with
  | nil =>
    show indexOfChar (c :: y) c = some 0
    unfold indexOfChar
    rw [if_pos rfl]
  | cons a as ih =>
    have hne : a ≠ c := by
      intro heq
      rw [heq] at h
      exact h (List.mem_cons_self c as)
    unfold indexOfChar
    simp only [List.cons_append]
    rw [if_neg hne, ih (fun hm => h (List.mem_cons_of_mem a hm))]
    rfl

theorem lastIndexOfChar_not_mem (s : Str) (c : Char) (h : c ∉ s) :
    lastIndexOfChar s c = none := by
  unfold lastIndexOfChar
  rw [indexOfChar_not_mem s.reverse c (fun hm => h (List.mem_reverse.mp hm))]
  rfl

theorem lastIndexOfChar_append (a b : Str) (c : Char) (h : c ∉ b) :
    lastIndexOfChar (a ++ c :: b) c = some a.length := by
  unfold lastIndexOfChar
  have hrev : (a ++ c :: b).reverse = b.reverse ++ c :: a.reverse := by
    simp
  rw [hrev, indexOfChar_append_not_mem _ _ _
    (fun hm => h (List.mem_reverse.mp hm))]
  show some ((a ++ c :: b).length - 1 - b.reverse.length) = some a.length
  congr 1
  simp only [List.length_append, List.length_cons, List.length_reverse]
  omega

theorem cutAtChar_not_mem (s : Str) (c : Char) (h : c ∉ s) :
    cutAtChar s c = (s, []) := by
  induction s with
  | nil => rfl
  | cons x xs ih =>
    unfold cutAtChar
    have hne : x ≠ c := by
      intro heq
      rw [heq] at h
      exact h (List.mem_cons_self c xs)
    rw [if_neg hne, ih (fun hm => h (List.mem_cons_of_mem x hm))]

theorem cutBeforeChar_not_mem (s : Str) (c : Char) (h : c ∉ s) :
    cutBeforeChar s c = (s, []) := by
  unfold cutBeforeChar
  rw [indexOfChar_not_mem s c h]

theorem startsWith_mem (s t : Str) (h : startsWith s t = true) :
    ∀ c ∈ t, c ∈ s := by
  induction t generalizing s with
  | nil => simp
  | cons p ps ih =>
    cases s with
    | nil => simp [startsWith] at h
    | cons x xs =>
      simp only [startsWith, Bool.and_eq_true, decide_eq_true_eq] at h
      intro c hc
      rcases List.mem_cons.mp hc with hc1 | hc2
      · exact hc1 ▸ h.1 ▸ List.mem_cons_self x xs
      · exact List.mem_cons_of_mem x (ih xs h.2 c hc2)

theorem containsSubstr_false (s t : Str) (d : Char) (hd : d ∈ t) (h : d ∉ s) :
    containsSubstr s t = false := by
  unfold containsSubstr
  have : substrIndex s t = none := by
    induction s with
    | nil =>
      unfold substrIndex
      rw [if_neg]
      intro heq
      rw [heq] at hd
      exact absurd hd (List.not_mem_nil d)
    | cons x xs ih =>
      unfold substrIndex
      rw [if_neg, ih (fun hm => h (List.mem_cons_of_mem x hm))]
      · rfl
      · intro hsw
        exact h (startsWith_mem _ _ hsw d hd)
  rw [this]
  rfl

theorem unescapeHost_all_allowed (s : Str)
    (h : ∀ c ∈ s, c ≠ '%' ∧ c.toNat < 128 ∧ allowedHostChar c = true) :
    unescapeHost s = some s := by
  induction s with
  | nil => rfl
  | cons c cs ih =>
    obtain ⟨hpc, _, hallow⟩ := h c (List.mem_cons_self c cs)
    unfold unescapeHost unescapeHostMode
    rw [if_neg hpc, if_neg (by simp [hallow])]
    have ihh := ih (fun x hx => h x (List.mem_cons_of_mem c hx))
    unfold unescapeHost at ihh
    rw [ihh]
    rfl

theorem not_mem_of_all_nameChar (name : Str)
    (hall : ∀ c ∈ name, nameChar c = true) (d : Char)
    (hd : nameChar d = false) : d ∉ name := by
  intro hm
  rw [hall d hm] at hd
  cases hd

theorem not_mem_of_all_digit09 (port : Str)
    (hall : ∀ c ∈ port, digit09 c = true) (d : Char)
    (hd : digit09 d = false) : d ∉ port := by
  intro hm
  rw [hall d hm] at hd
  cases hd

theorem getScheme_http (r : Str) :
    getScheme ("http://".data ++ r) = some ("http".data, '/' :: '/' :: r) := rfl

theorem startsWith_nil (s : Str) : startsWith s [] = true := by
  cases s <;> rfl

theorem startsWith_cons_single (c0 : Char) (cs : Str) (d : Char) :
    startsWith (c0 :: cs) [d] = decide (c0 = d) := by
  unfold startsWith
  simp [startsWith_nil]

theorem unescapeHost_of_hostchars (s : Str)
    (h : ∀ c ∈ s, nameChar c = true ∨ c = ':') : unescapeHost s = some s := by
  apply unescapeHost_all_allowed
  intro c hc
  rcases h c hc with hn | hcolon
  · obtain ⟨_, _, _, _, _, _, _, h8, _, _, h11, h12⟩ := nameChar_facts c hn
    exact ⟨h8, h12, h11⟩
  · subst hcolon
    refine ⟨by decide, by decide, by decide⟩

theorem parseHost_name (name : Str) (hne : name ≠ [])
    (hall : ∀ c ∈ name, nameChar c = true) : parseHost name = some name := by
  have hstart : startsWith name ['['] = false := by
    cases name with
    | nil => exact absurd rfl hne
    | cons c0 cs =>
      rw [startsWith_cons_single]
      have hfacts := nameChar_facts c0 (hall c0 (List.mem_cons_self c0 cs))
      simp [hfacts.2.2.2.2.2.1]
  have hcolon : lastIndexOfChar name ':' = none :=
    lastIndexOfChar_not_mem name ':'
      (not_mem_of_all_nameChar name hall ':' (by decide))
  unfold parseHost
  rw [hstart, hcolon, unescapeHost_of_hostchars name (fun c hc => Or.inl (hall c hc))]
  simp

theorem parseHost_hostport (name port : Str) (hne : name ≠ [])
    (hall : ∀ c ∈ name, nameChar c = true)
    (hport : ∀ c ∈ port, digit09 c = true) :
    parseHost (name ++ ':' :: port) = some (name ++ ':' :: port) := by
  have hstart : startsWith (name ++ ':' :: port) ['['] = false := by
    cases name with
    | nil => exact absurd rfl hne
    | cons c0 cs =>
      rw [List.cons_append, startsWith_cons_single]
      have hfacts := nameChar_facts c0 (hall c0 (List.mem_cons_self c0 cs))
      simp [hfacts.2.2.2.2.2.1]
  have hcolon : lastIndexOfChar (name ++ ':' :: port) ':' = some name.length :=
    lastIndexOfChar_append name port ':'
      (not_mem_of_all_digit09 port hport ':' (by decide))
  have hdrop : (name ++ ':' :: port).drop name.length = ':' :: port := by
    exact List.drop_left name (':' :: port)
  have hvop : validOptionalPort ((name ++ ':' :: port).drop name.length) = true := by
    rw [hdrop]
    unfold validOptionalPort
    exact List.all_eq_true.mpr hport
  have hchars : ∀ c ∈ name ++ ':' :: port, nameChar c = true ∨ c = ':' := by
    intro c hc
    rcases List.mem_append.mp hc with h1 | h2
    · exact Or.inl (hall c h1)
    · rcases List.mem_cons.mp h2 with h3 | h4
      · exact Or.inr h3
      · exact Or.inl (digit09_nameChar c (hport c h4))
  unfold parseHost
  rw [hstart, hcolon]
  simp only [Bool.false_eq_true, if_false, hvop]
  rw [unescapeHost_of_hostchars _ hchars]
  simp

theorem percentEscapesOk_nil : percentEscapesOk [] = true := rfl

theorem hostchar_ne (h : Str) (hchars : ∀ c ∈ h, nameChar c = true ∨ c = ':')
    (d : Char) (hd1 : nameChar d = false) (hd2 : d ≠ ':') : d ∉ h := by
  intro hm
  rcases hchars d hm with hn | hc
  · rw [hn] at hd1
    cases hd1
  · exact hd2 hc

theorem urlParseHost_http (h : Str) (_hne : h ≠ [])
    (hchars : ∀ c ∈ h, nameChar c = true ∨ c = ':') :
    urlParseHost ("http://".data ++ h) = parseHost h := by
  have hctl : containsCTL ("http://".data ++ h) = false := by
    unfold containsCTL
    rw [List.any_append]
    have h1 : ("http://".data).any isCTL = false := by decide
    have h2 : h.any isCTL = false := by
      rw [List.any_eq_false]
      intro c hc
      rcases hchars c hc with hn | hcol
      · simp [(nameChar_facts c hn).2.2.2.2.2.2.2.2.1]
      · rw [hcol]
        decide
    rw [h1, h2]
    rfl
  have hhash : ('#') ∉ "http://".data ++ h := by
    rw [List.mem_append]
    rintro (h1 | h2)
    · revert h1
      decide
    · exact hostchar_ne h hchars '#' (by decide) (by decide) h2
  have hq : ('?') ∉ ('/' :: '/' :: h) := by
    intro hm
    rcases List.mem_cons.mp hm with h1 | hm2
    · cases h1
    · rcases List.mem_cons.mp hm2 with h2 | hm3
      · cases h2
      · exact hostchar_ne h hchars '?' (by decide) (by decide) hm3
  have hslash : ('/') ∉ h := hostchar_ne h hchars '/' (by decide) (by decide)
  have hat : ('@') ∉ h := hostchar_ne h hchars '@' (by decide) (by decide)
  have hsw : startsWith ('/' :: '/' :: h) ['/', '/'] = true := by
    simp [startsWith, startsWith_nil]
  unfold urlParseHost
  rw [hctl, cutAtChar_not_mem _ _ hhash]
  simp only [Bool.false_eq_true, if_false]
  rw [getScheme_http h]
  simp only []
  rw [cutAtChar_not_mem _ _ hq]
  simp only [percentEscapesOk_nil, cutBeforeChar_not_mem _ _ hslash, hsw,
    Bool.not_true, Bool.false_eq_true, if_false, Bool.true_and, Bool.true_or,
    decide_not, List.drop_succ_cons, List.drop_zero]
  rw [show (decide ((['h', 't', 't', 'p'] : Str) = [])) = false from rfl]
  simp only [Bool.not_false, Bool.true_or, Bool.true_and, if_pos rfl]
  unfold parseAuthorityHost
  rw [lastIndexOfChar_not_mem _ _ hat]
  simp only [percentEscapesOk_nil]
  cases hph : parseHost h with
  | none => rfl
  | some host => rfl

theorem urlSplitHostPort_name (name : Str) (hne : name ≠ [])
    (hall : ∀ c ∈ name, nameChar c = true) :
    urlSplitHostPort name = (name, []) := by
  have hcolon : lastIndexOfChar name ':' = none :=
    lastIndexOfChar_not_mem name ':'
      (not_mem_of_all_nameChar name hall ':' (by decide))
  have hstart : startsWith name ['['] = false := by
    cases name with
    | nil => exact absurd rfl hne
    | cons c0 cs =>
      rw [startsWith_cons_single]
      have hfacts := nameChar_facts c0 (hall c0 (List.mem_cons_self c0 cs))
      simp [hfacts.2.2.2.2.2.1]
  unfold urlSplitHostPort
  rw [hcolon]
  simp only [hstart, Bool.false_and, Bool.false_eq_true, if_false]

theorem urlSplitHostPort_hostport (name port : Str) (hne : name ≠ [])
    (hall : ∀ c ∈ name, nameChar c = true)
    (hport : ∀ c ∈ port, digit09 c = true) :
    urlSplitHostPort (name ++ ':' :: port) = (name, port) := by
  have hcolon : lastIndexOfChar (name ++ ':' :: port) ':' = some name.length :=
    lastIndexOfChar_append name port ':'
      (not_mem_of_all_digit09 port hport ':' (by decide))
  have hvop : validOptionalPort (':' :: port) = true := by
    unfold validOptionalPort
    exact List.all_eq_true.mpr hport
  have htake : (name ++ ':' :: port).take name.length = name :=
    List.take_left name (':' :: port)
  have hdrop1 : (name ++ ':' :: port).drop (name.length + 1) = port := by
    have he : name ++ ':' :: port = (name ++ [':']) ++ port := by simp
    have hlen : (name ++ [':']).length = name.length + 1 := by simp
    rw [he, ← hlen]
    exact List.drop_left (name ++ [':']) port
  have hstart : startsWith name ['['] = false := by
    cases name with
    | nil => exact absurd rfl hne
    | cons c0 cs =>
      rw [startsWith_cons_single]
      have hfacts := nameChar_facts c0 (hall c0 (List.mem_cons_self c0 cs))
      simp [hfacts.2.2.2.2.2.1]
  unfold urlSplitHostPort
  rw [hcolon]
  simp [hvop, htake, hdrop1, hstart]

theorem lowerChar_nameChar (c : Char) (h : nameChar c = true) :
    nameChar (lowerChar c) = true ∧ lowerChar (lowerChar c) = lowerChar c := by
  have hn := nameChar_toNat c h
  unfold lowerChar
  by_cases hu : upperAZ c = true
  · have hu2 : 65 ≤ c.toNat ∧ c.toNat ≤ 90 := by
      simp only [GoStr.upperAZ, Bool.and_eq_true, decide_eq_true_eq,
        charLeToNat, Char.reduceToNat] at hu
      omega
    rw [if_pos hu]
    have htn : (Char.ofNat (c.toNat + 32)).toNat = c.toNat + 32 :=
      charToNatOfNat _ (by omega)
    have hlow : nameChar (Char.ofNat (c.toNat + 32)) = true := by
      simp only [nameChar, GoStr.lowerAZ, GoStr.upperAZ, GoStr.digit09,
        Bool.or_eq_true, Bool.and_eq_true, decide_eq_true_eq, charLeToNat,
        charEqToNat, Char.reduceToNat, htn]
      omega
    have hnup : upperAZ (Char.ofNat (c.toNat + 32)) = false := by
      simp only [GoStr.upperAZ, Bool.and_eq_false_iff,
        decide_eq_false_iff_not, charLeToNat, Char.reduceToNat, htn]
      omega
    rw [if_neg (by simp [hnup])]
    exact ⟨hlow, rfl⟩
  · rw [if_neg hu, if_neg hu]
    exact ⟨h, rfl⟩

theorem goToLower_all_nameChar (name : Str)
    (hall : ∀ c ∈ name, nameChar c = true) :
    ∀ c ∈ goToLower name, nameChar c = true := by
  intro c hc
  unfold goToLower at hc
  obtain ⟨d, hd, hdc⟩ := List.mem_map.mp hc
  rw [← hdc]
  exact (lowerChar_nameChar d (hall d hd)).1

theorem goToLower_idem (name : Str)
    (hall : ∀ c ∈ name, nameChar c = true) :
    goToLower (goToLower name) = goToLower name := by
  unfold goToLower
  rw [List.map_map]
  apply List.map_congr_left
  intro c hc
  exact (lowerChar_nameChar c (hall c hc)).2

theorem contains_colon_false (s : Str) (h : (':') ∉ s) :
    s.contains ':' = false := by
  simpa using h

theorem netJoinHostPort_no_colon (host port : Str) (h : (':') ∉ host) :
    netJoinHostPort host port = host ++ ':' :: port := by
  unfold netJoinHostPort
  rw [contains_colon_false host h]
  simp

theorem goTrimSpace_nil : goTrimSpace [] = [] := rfl

theorem goToLower_trim (name : Str)
    (hall : ∀ c ∈ name, nameChar c = true) :
    goToLower (goTrimSpace name) = goToLower name := by
  rw [goTrimSpace_all name
    (fun c hc => (nameChar_facts c (hall c hc)).2.2.2.2.2.2.2.2.2.1)]

theorem nbh_no_scheme_sep (name : Str)
    (hall : ∀ c ∈ name, nameChar c = true) :
    containsSubstr name ("://").data = false := by
  apply containsSubstr_false name _ '/'
  · simp
  · exact not_mem_of_all_nameChar name hall '/' (by decide)

theorem nbh_name (name : Str) (hne : name ≠ [])
    (hall : ∀ c ∈ name, nameChar c = true) :
    NormalizeBackendHost name = goToLower name := by
  have htrim : goTrimSpace name = name :=
    goTrimSpace_all name
      (fun c hc => (nameChar_facts c (hall c hc)).2.2.2.2.2.2.2.2.2.1)
  have hparse := urlParseHost_http name hne (fun c hc => Or.inl (hall c hc))
  rw [parseHost_name name hne hall] at hparse
  have hsplit := urlSplitHostPort_name name hne hall
  have hlowne : goToLower name ≠ [] := by
    unfold goToLower
    simp [hne]
  have hparse2 : urlParseHost ('h' :: 't' :: 't' :: 'p' :: ':' :: '/' :: '/' :: name) =
      some name := hparse
  unfold NormalizeBackendHost
  rw [htrim]
  simp [hne, nbh_no_scheme_sep name hall, hparse2, hsplit, htrim, hlowne,
    goTrimSpace_nil]

theorem nbh_hostport (name port : Str) (hne : name ≠ [])
    (hall : ∀ c ∈ name, nameChar c = true)
    (hpne : port ≠ []) (hport : ∀ c ∈ port, digit09 c = true) :
    NormalizeBackendHost (name ++ ':' :: port) =
      if port = ['8', '0'] ∨ port = ['4', '4', '3'] then goToLower name
      else goToLower name ++ ':' :: port := by
  have hchars : ∀ c ∈ name ++ ':' :: port, nameChar c = true ∨ c = ':' := by
    intro c hc
    rcases List.mem_append.mp hc with h1 | h2
    · exact Or.inl (hall c h1)
    · rcases List.mem_cons.mp h2 with h3 | h4
      · exact Or.inr h3
      · exact Or.inl (digit09_nameChar c (hport c h4))
  have hne2 : name ++ ':' :: port ≠ [] := by
    cases name <;> simp
  have htrim : goTrimSpace (name ++ ':' :: port) = name ++ ':' :: port := by
    apply goTrimSpace_all
    intro c hc
    rcases hchars c hc with hn | hcol
    · exact (nameChar_facts c hn).2.2.2.2.2.2.2.2.2.1
    · rw [hcol]
      decide
  have hsep : containsSubstr (name ++ ':' :: port) ("://").data = false := by
    apply containsSubstr_false _ _ '/'
    · simp
    · intro hm
      rcases hchars '/' hm with hn | hcol
      · rw [show nameChar '/' = false from rfl] at hn
        cases hn
      · cases hcol
  have hparse := urlParseHost_http (name ++ ':' :: port) hne2 hchars
  rw [parseHost_hostport name port hne hall hport] at hparse
  have hsplit := urlSplitHostPort_hostport name port hne hall hport
  have htrimname : goTrimSpace name = name :=
    goTrimSpace_all name
      (fun c hc => (nameChar_facts c (hall c hc)).2.2.2.2.2.2.2.2.2.1)
  have htrimport : goTrimSpace port = port :=
    goTrimSpace_all port
      (fun c hc =>
        (nameChar_facts c (digit09_nameChar c (hport c hc))).2.2.2.2.2.2.2.2.2.1)
  have hlowne : goToLower name ≠ [] := by
    unfold goToLower
    simp [hne]
  have hjoin : netJoinHostPort (goToLower name) port =
      goToLower name ++ ':' :: port :=
    netJoinHostPort_no_colon _ port
      (not_mem_of_all_nameChar _ (goToLower_all_nameChar name hall) ':'
        (by decide))
  have hparse2 : urlParseHost
      ('h' :: 't' :: 't' :: 'p' :: ':' :: '/' :: '/' :: (name ++ ':' :: port)) =
      some (name ++ ':' :: port) := hparse
  unfold NormalizeBackendHost
  rw [htrim]
  simp only [hne2, hsep, Bool.false_eq_true, if_false, if_neg hne2, hparse2,
    hsplit, htrimname, htrimport, hlowne]
  by_cases hp : port = ['8', '0'] ∨ port = ['4', '4', '3']
  · simp [hp, hlowne, goTrimSpace_nil, hparse2, hsplit, htrimname, htrimport,
      hne2, hjoin]
  · simp [hp, hpne, hlowne, goTrimSpace_nil, hparse2, hsplit, htrimname,
      htrimport, hne2, hjoin]

theorem goToLower_ne_nil (name : Str) (hne : name ≠ []) :
    goToLower name ≠ [] := by
  unfold goToLower
  simp [hne]

/-- C7 (amended).  Backend-host normalization is idempotent on every
host of the canonical `hostname[:port]` shape: a non-empty DNS-style
name (ASCII letters, digits, dots, hyphens), optionally followed by a
colon and a non-empty decimal port.  (It is not idempotent on bracketed
IPv6 literals without a port; see the counterexample.) -/
theorem c7_idempotent_on_hostname_port (h : Str) (hs : hostShaped h) :
    NormalizeBackendHost (NormalizeBackendHost h) = NormalizeBackendHost h := by
  rcases hs with ⟨hne, hall⟩ | ⟨name, port, heq, hne, hall, hpne, hport⟩
  · have hall2 := List.all_eq_true.mp hall
    rw [nbh_name h hne hall2]
    rw [nbh_name (goToLower h) (goToLower_ne_nil h hne)
      (goToLower_all_nameChar h hall2)]
    exact goToLower_idem h hall2
  · subst heq
    have hall2 := List.all_eq_true.mp hall
    have hport2 := List.all_eq_true.mp hport
    rw [nbh_hostport name port hne hall2 hpne hport2]
    by_cases hp : port = ['8', '0'] ∨ port = ['4', '4', '3']
    · rw [if_pos hp]
      rw [nbh_name (goToLower name) (goToLower_ne_nil name hne)
        (goToLower_all_nameChar name hall2)]
      exact goToLower_idem name hall2
    · rw [if_neg hp]
      rw [nbh_hostport (goToLower name) port (goToLower_ne_nil name hne)
        (goToLower_all_nameChar name hall2) hpne hport2]
      rw [if_neg hp]
      rw [goToLower_idem name hall2]

/-- Witness for C7 (amended) at a concrete mixed-case host with port. -/
theorem c7_idempotent_on_hostname_port_witness :
    NormalizeBackendHost (NormalizeBackendHost ("API.example.com:8443").data) =
      NormalizeBackendHost ("API.example.com:8443").data :=
  c7_idempotent_on_hostname_port ("API.example.com:8443").data
    (Or.inr ⟨("API.example.com").data, ("8443").data, by decide, by decide,
      by decide, by decide, by decide⟩)

end HostNorm

end HostNormTheorems
